import Mathlib

/-!
Experience and levelling model of `ATAM_CWCharacter`.

A shallow embedding of the progression code of `src/TAM_CWCharacter.cpp`
(`BeginPlay`, `Tick`, `UpdateExp`, `BufferExp`, `LevelUp`, `LevelCapped`,
`SaveGame`/`SaveData`, `LoadData`, `SkillPointsCost`, `GetExp`).

Conventions of the embedding.

* The `float` members hold rationals, and the code is given in two readings.
  In the exact reading (namespace `ATAM_CWCharacter`) `+`, `-`, `*` are exact;
  it serves the properties that are about which branch runs, which members
  are written and what is copied.  In the single-precision reading
  (namespace `F32`) every `float` operation is followed by `f32`, the
  rounding of IEEE 754 binary32 (round to nearest, ties to even); it serves
  the properties that are about the value a computation leaves behind.
* A float division has no value when the divisor is zero (the machine result
  there is an infinity or a NaN); the only member computed by a division is
  `ExpPercentage`, which no other computation reads.
* `int` members hold mathematical integers.  Signed overflow is undefined
  in C++; the one increment of `CurrentLevel` that `Tick` performs is
  guarded by `CurrentLevel < LevelCap`.
* Each member function is a function from the object before the call to the
  object after it.  Of the engine only what the class hands to it is kept:
  the text passed to `AddOnScreenDebugMessage` and the fact that `LevelUp`
  has set `_loopTimerHandle`.
-/

namespace TAM_CW

/-- The `round` of `<cmath>`: the nearest integer, halfway cases away from zero. -/
def round (x : ℚ) : ℚ :=
  if 0 ≤ x then ((⌊x + 1 / 2⌋ : ℤ) : ℚ) else ((⌈x - 1 / 2⌉ : ℤ) : ℚ)

/-- Float division `a / b` in the exact reading, with the exact quotient; no
value for a zero divisor. -/
def fdiv (a b : ℚ) : Option ℚ :=
  if b = 0 then none else some (a / b)

/-- Modelled from the spec: the member declarations of `TAM_CWCharacter.h`,
which is not among the sources.  The types are read off the uses in
`TAM_CWCharacter.cpp` (`100.0f`, `1.2f`, `CurrentLevel++`, the parameter list
`float, float, int, int` of `SaveData`) and off the spec's snapshot, a copy
"by value" of `(currentExp, maxExp, currentLevel, skillPoints)`: the two save
arrays have two cells each, `ExpProgressData` of floats and
`LevelProgressData` of ints.  `ScreenMessages` and `LoopTimerSet` stand for
the engine side of `AddOnScreenDebugMessage` and `SetTimer`. -/
structure ATAM_CWCharacter where
  CurrentLevel : Int
  SkillPoints : Int
  LevelCap : Int
  MaxExp : ℚ
  CurrentExp : ℚ
  PreviousCurrentExp : ℚ
  ExpPercentage : Option ℚ
  ExpGrowth : ℚ
  ExpOverflow : ℚ
  ExpLeft : ℚ
  ExpProgressData : ℚ × ℚ
  LevelProgressData : Int × Int
  hasSaved : Bool
  ScreenMessages : List String
  LoopTimerSet : Bool
  deriving DecidableEq

namespace ATAM_CWCharacter

/-- The member assignments of `BeginPlay` (lines 102-111) in the exact reading:
the literal `1.2f` stands for 6/5.  Its `float` value is in `F32.BeginPlay`. -/
def BeginPlay (c : ATAM_CWCharacter) : ATAM_CWCharacter :=
  { c with
    CurrentLevel := 1
    SkillPoints := 0
    LevelCap := 100
    MaxExp := 100
    CurrentExp := 0
    PreviousCurrentExp := 0
    ExpPercentage := some 0
    ExpGrowth := 6 / 5
    ExpOverflow := 0
    ExpLeft := 100 }

/-- The value the experience bar reads, `GetExp` (lines 350-352). -/
def GetExp (c : ATAM_CWCharacter) : Option ℚ :=
  c.ExpPercentage

/-- Adding experience, `UpdateExp` (lines 403-411). -/
def UpdateExp (ExpChange : ℚ) (c : ATAM_CWCharacter) : ATAM_CWCharacter :=
  if c.CurrentLevel < c.LevelCap then
    let c1 := { c with PreviousCurrentExp := c.CurrentExp }
    let c2 := { c1 with CurrentExp := c1.CurrentExp + ExpChange }
    let c3 := { c2 with ExpLeft := c2.MaxExp - c2.CurrentExp }
    { c3 with ExpPercentage := fdiv c3.CurrentExp c3.MaxExp }
  else c

/-- The debug key handler `AddExp` (lines 413-415). -/
def AddExp (c : ATAM_CWCharacter) : ATAM_CWCharacter :=
  UpdateExp 20 c

/-- Carrying the excess into the next level, `BufferExp` (lines 417-429), in
the exact reading: the subtractions are exact.  `F32.BufferExp` rounds them. -/
def BufferExp (c : ATAM_CWCharacter) : ATAM_CWCharacter :=
  let c4 :=
    if c.CurrentExp ≠ c.MaxExp then
      let c1 := { c with ExpOverflow := c.CurrentExp - c.MaxExp }
      let c2 := { c1 with CurrentExp := 0 + c1.ExpOverflow }
      let c3 := { c2 with CurrentExp := round c2.CurrentExp }
      { c3 with ExpOverflow := 0 }
    else
      { c with CurrentExp := 0 }
  { c4 with ExpLeft := c4.MaxExp * c4.ExpGrowth - c4.CurrentExp }

/-- One level-up, `LevelUp` (lines 433-444). -/
def LevelUp (c : ATAM_CWCharacter) : ATAM_CWCharacter :=
  let c1 := { c with CurrentLevel := c.CurrentLevel + 1 }
  let c2 := { c1 with SkillPoints := c1.SkillPoints + 1 }
  let c3 := BufferExp c2
  let c4 := { c3 with MaxExp := c3.MaxExp * c3.ExpGrowth }
  let c5 := { c4 with ExpPercentage := fdiv c4.CurrentExp c4.MaxExp }
  { c5 with LoopTimerSet := true }

/-- The timer callback `PrintLevelUpMessage` (lines 397-399). -/
def PrintLevelUpMessage (c : ATAM_CWCharacter) : ATAM_CWCharacter :=
  { c with ScreenMessages := c.ScreenMessages ++ ["Level Up!"] }

/-- The capped state, `LevelCapped` (lines 446-449). -/
def LevelCapped (c : ATAM_CWCharacter) : ATAM_CWCharacter :=
  let c1 := { c with MaxExp := c.CurrentExp }
  { c1 with ExpOverflow := c1.CurrentExp }

/-- The per-frame check, `Tick` (lines 129-142); `DeltaTime` is not used. -/
def Tick (_DeltaTime : ℚ) (c : ATAM_CWCharacter) : ATAM_CWCharacter :=
  let c1 := if c.CurrentExp ≥ c.MaxExp ∧ c.CurrentLevel < c.LevelCap then LevelUp c else c
  if c1.CurrentLevel ≥ c1.LevelCap then LevelCapped c1 else c1

/-- Filling the save arrays, `SaveData` (lines 458-463). -/
def SaveData (SCurrentExp SMaxExp : ℚ) (SCurrentLevel SSkillpoints : Int)
    (c : ATAM_CWCharacter) : ATAM_CWCharacter :=
  let c1 := { c with ExpProgressData := (SCurrentExp, c.ExpProgressData.2) }
  let c2 := { c1 with ExpProgressData := (c1.ExpProgressData.1, SMaxExp) }
  let c3 := { c2 with LevelProgressData := (SCurrentLevel, c2.LevelProgressData.2) }
  { c3 with LevelProgressData := (c3.LevelProgressData.1, SSkillpoints) }

/-- Saving, `SaveGame` (lines 453-456). -/
def SaveGame (c : ATAM_CWCharacter) : ATAM_CWCharacter :=
  let c1 := SaveData c.CurrentExp c.MaxExp c.CurrentLevel c.SkillPoints c
  { c1 with hasSaved := true }

/-- Loading, `LoadData` (lines 465-475). -/
def LoadData (c : ATAM_CWCharacter) : ATAM_CWCharacter :=
  if c.hasSaved then
    let c1 := { c with CurrentExp := c.ExpProgressData.1 }
    let c2 := { c1 with MaxExp := c1.ExpProgressData.2 }
    let c3 := { c2 with CurrentLevel := c2.LevelProgressData.1 }
    let c4 := { c3 with SkillPoints := c3.LevelProgressData.2 }
    let c5 := { c4 with ExpPercentage := fdiv c4.ExpProgressData.1 c4.ExpProgressData.2 }
    { c5 with ExpLeft := c5.MaxExp - c5.CurrentExp }
  else c

/-- Spending, `SkillPointsCost` (lines 527-534). -/
def SkillPointsCost (Cost : Int) (c : ATAM_CWCharacter) : ATAM_CWCharacter :=
  if c.SkillPoints > 0 then
    { c with SkillPoints := c.SkillPoints - Cost }
  else
    { c with ScreenMessages := c.ScreenMessages ++ ["No skill points to spend"] }

/-- The button handler `SpendSkillPoints` (lines 523-525). -/
def SpendSkillPoints (c : ATAM_CWCharacter) : ATAM_CWCharacter :=
  SkillPointsCost 1 c

end ATAM_CWCharacter

open ATAM_CWCharacter

/-- One call from outside into the progression code. -/
inductive Call where
  | UpdateExp (ExpChange : ℚ)
  | Tick (DeltaTime : ℚ)
  | SaveGame
  | LoadData
  | SkillPointsCost (Cost : Int)
  deriving DecidableEq

/-- The object after one call. -/
def Call.run : Call → ATAM_CWCharacter → ATAM_CWCharacter
  | .UpdateExp d, c => ATAM_CWCharacter.UpdateExp d c
  | .Tick dt, c => ATAM_CWCharacter.Tick dt c
  | .SaveGame, c => ATAM_CWCharacter.SaveGame c
  | .LoadData, c => ATAM_CWCharacter.LoadData c
  | .SkillPointsCost k, c => ATAM_CWCharacter.SkillPointsCost k c

/-- The object after a finite sequence of calls, first call first. -/
def runCalls : List Call → ATAM_CWCharacter → ATAM_CWCharacter
  | [], c => c
  | call :: rest, c => runCalls rest (call.run c)

/-- A freshly begun character: `BeginPlay` applied to an object that has never
saved; the cells of the save arrays hold whatever they were created with. -/
def freshCharacter (e : ℚ × ℚ) (l : Int × Int) : ATAM_CWCharacter :=
  BeginPlay
    { CurrentLevel := 0, SkillPoints := 0, LevelCap := 0, MaxExp := 0, CurrentExp := 0,
      PreviousCurrentExp := 0, ExpPercentage := none, ExpGrowth := 0, ExpOverflow := 0,
      ExpLeft := 0, ExpProgressData := e, LevelProgressData := l, hasSaved := false,
      ScreenMessages := [], LoopTimerSet := false }

/-- The calls that grant experience or run the per-frame check. -/
def Call.isExpOrTick : Call → Bool
  | .UpdateExp _ => true
  | .Tick _ => true
  | _ => false

/-- The calls that leave the save arrays alone: everything but save and load. -/
def Call.isPlay : Call → Bool
  | .UpdateExp _ => true
  | .Tick _ => true
  | .SkillPointsCost _ => true
  | _ => false

/-- Rounding to the nearest integer with halfway cases away from zero, in the
words of the spec: the magnitude is rounded half up and the sign is put back. -/
def roundHalfAwayFromZero (x : ℚ) : ℚ :=
  if 0 ≤ x then ((⌊|x| + 1 / 2⌋ : ℤ) : ℚ) else -((⌊|x| + 1 / 2⌋ : ℤ) : ℚ)

/-- One grant of 10^11 experience followed by 99 frame checks. -/
def climb : List Call :=
  Call.UpdateExp 100000000000 :: List.replicate 99 (Call.Tick 0)

/-- The character a fresh one becomes by `climb`: level 100, the cap. -/
def atCap : ATAM_CWCharacter :=
  runCalls climb (freshCharacter (0, 0) (0, 0))

/-- Earning 100 experience, one frame check (a level-up for a fresh character)
and a charge of 2 skill points. -/
def overspend : List Call :=
  [Call.UpdateExp 100, Call.Tick 0, Call.SkillPointsCost 2]

/-- The cached members agree with the authoritative ones, in the words of the
spec: `ExpLeft` is `MaxExp - CurrentExp` and `ExpPercentage` is the quotient
`CurrentExp / MaxExp` (the float division of the two, so without a value when
`MaxExp` is zero). -/
def CachedFieldsConsistent (c : ATAM_CWCharacter) : Prop :=
  c.ExpLeft = c.MaxExp - c.CurrentExp ∧ c.ExpPercentage = fdiv c.CurrentExp c.MaxExp

instance (c : ATAM_CWCharacter) : Decidable (CachedFieldsConsistent c) := by
  unfold CachedFieldsConsistent
  infer_instance

/-- The power of two `2 ^ k` for an integer exponent. -/
def pow2 (k : Int) : ℚ :=
  if 0 ≤ k then ((2 ^ k.toNat : ℕ) : ℚ) else 1 / ((2 ^ (-k).toNat : ℕ) : ℚ)

/-- Halving `n` until it is below 2, at most `fuel` times, counting the halvings. -/
def log2Aux : Nat → Nat → Nat
  | 0, _ => 0
  | fuel + 1, n => if n < 2 then 0 else log2Aux fuel (n / 2) + 1

/-- The position of the leading bit of a natural number: `2 ^ log2 n ≤ n < 2 ^ (log2 n + 1)`
for `n ≥ 1`. -/
def log2 (n : Nat) : Nat :=
  log2Aux n n

/-- The binary exponent of a positive rational: the `k` with `2 ^ k ≤ a < 2 ^ (k + 1)`. -/
def ilog2 (a : ℚ) : Int :=
  let k : Int := (log2 a.num.natAbs : Int) - (log2 a.den : Int)
  if pow2 k ≤ a then k else k - 1

/-- Rounding to the nearest integer, halfway cases to the even one. -/
def roundHalfEven (y : ℚ) : Int :=
  let f : Int := ⌊y⌋
  if y - f < 1 / 2 then f
  else if 1 / 2 < y - f then f + 1
  else if f % 2 = 0 then f else f + 1

/-- The exponent of the spacing of `float` values around `x`: 24 significant
bits in the normal range, the fixed spacing `2 ^ (-149)` below `2 ^ (-126)`. -/
def quantum (x : ℚ) : Int :=
  max (ilog2 |x|) (-126) - 23

/-- Rounding a real result to `float` (IEEE 754 binary32, round to nearest,
ties to even).  Results beyond the largest finite `float` are not modelled. -/
def f32 (x : ℚ) : ℚ :=
  if x = 0 then 0 else (roundHalfEven (x / pow2 (quantum x)) : ℚ) * pow2 (quantum x)

/-- Float division `a / b` rounded to `float`; no value for a zero divisor. -/
def fdiv32 (a b : ℚ) : Option ℚ :=
  if b = 0 then none else some (f32 (a / b))

namespace F32

/-- The member assignments of `BeginPlay` (lines 102-111) with the literals
as `float` values: `1.2f` is the `float` nearest 1.2, the others are exact. -/
def BeginPlay (c : ATAM_CWCharacter) : ATAM_CWCharacter :=
  { c with
    CurrentLevel := 1
    SkillPoints := 0
    LevelCap := 100
    MaxExp := 100
    CurrentExp := 0
    PreviousCurrentExp := 0
    ExpPercentage := some 0
    ExpGrowth := f32 (6 / 5)
    ExpOverflow := 0
    ExpLeft := 100 }

/-- Adding experience, `UpdateExp` (lines 403-411), each result rounded to `float`. -/
def UpdateExp (ExpChange : ℚ) (c : ATAM_CWCharacter) : ATAM_CWCharacter :=
  if c.CurrentLevel < c.LevelCap then
    let c1 := { c with PreviousCurrentExp := c.CurrentExp }
    let c2 := { c1 with CurrentExp := f32 (c1.CurrentExp + ExpChange) }
    let c3 := { c2 with ExpLeft := f32 (c2.MaxExp - c2.CurrentExp) }
    { c3 with ExpPercentage := fdiv32 c3.CurrentExp c3.MaxExp }
  else c

/-- Carrying the excess into the next level, `BufferExp` (lines 417-429), each
result rounded to `float`.  The `round` of a `float` is a `float`, so nothing
is rounded after it. -/
def BufferExp (c : ATAM_CWCharacter) : ATAM_CWCharacter :=
  let c4 :=
    if c.CurrentExp ≠ c.MaxExp then
      let c1 := { c with ExpOverflow := f32 (c.CurrentExp - c.MaxExp) }
      let c2 := { c1 with CurrentExp := f32 (0 + c1.ExpOverflow) }
      let c3 := { c2 with CurrentExp := round c2.CurrentExp }
      { c3 with ExpOverflow := 0 }
    else
      { c with CurrentExp := 0 }
  { c4 with ExpLeft := f32 (f32 (c4.MaxExp * c4.ExpGrowth) - c4.CurrentExp) }

/-- One level-up, `LevelUp` (lines 433-444), each result rounded to `float`. -/
def LevelUp (c : ATAM_CWCharacter) : ATAM_CWCharacter :=
  let c1 := { c with CurrentLevel := c.CurrentLevel + 1 }
  let c2 := { c1 with SkillPoints := c1.SkillPoints + 1 }
  let c3 := BufferExp c2
  let c4 := { c3 with MaxExp := f32 (c3.MaxExp * c3.ExpGrowth) }
  let c5 := { c4 with ExpPercentage := fdiv32 c4.CurrentExp c4.MaxExp }
  { c5 with LoopTimerSet := true }

/-- The per-frame check, `Tick` (lines 129-142); `LevelCapped` only copies. -/
def Tick (_DeltaTime : ℚ) (c : ATAM_CWCharacter) : ATAM_CWCharacter :=
  let c1 := if c.CurrentExp ≥ c.MaxExp ∧ c.CurrentLevel < c.LevelCap then LevelUp c else c
  if c1.CurrentLevel ≥ c1.LevelCap then LevelCapped c1 else c1

end F32

/-- A freshly begun character in single precision. -/
def freshCharacter32 : ATAM_CWCharacter :=
  F32.BeginPlay
    { CurrentLevel := 0, SkillPoints := 0, LevelCap := 0, MaxExp := 0, CurrentExp := 0,
      PreviousCurrentExp := 0, ExpPercentage := none, ExpGrowth := 0, ExpOverflow := 0,
      ExpLeft := 0, ExpProgressData := (0, 0), LevelProgressData := (0, 0), hasSaved := false,
      ScreenMessages := [], LoopTimerSet := false }

/-- The magnitude from which a result rounds to an infinity instead of a
finite `float`: half a spacing above the largest `float`. -/
def overflowThreshold : ℚ :=
  (2 - 1 / 2 ^ 24) * 2 ^ 127

/-- A fresh character in single precision that has gained 110, levelled up on
the next frame, and then gained 1144.5: `CurrentExp` is 1154.5 and `MaxExp` is
15728641/131072. -/
def afterSecondGrant32 : ATAM_CWCharacter :=
  F32.UpdateExp (2289 / 2) (F32.Tick 0 (F32.UpdateExp 110 freshCharacter32))

/-- A fresh character in single precision that has gained 99999997952 at once. -/
def afterHugeGrant32 : ATAM_CWCharacter :=
  F32.UpdateExp 99999997952 freshCharacter32

/-- The character after `n` further frame checks in single precision. -/
def ticks32 : Nat → ATAM_CWCharacter → ATAM_CWCharacter
  | 0, c => c
  | n + 1, c => ticks32 n (F32.Tick 0 c)

/-- A fresh character in single precision after one grant of 10^11 experience
and 99 frame checks: level 100, the cap. -/
def atCap32 : ATAM_CWCharacter :=
  ticks32 99 (F32.UpdateExp 100000000000 freshCharacter32)

/-! ## Field lemmas -/

theorem UpdateExp_CurrentLevel (d : ℚ) (c : ATAM_CWCharacter) :
    (UpdateExp d c).CurrentLevel = c.CurrentLevel := by
  unfold UpdateExp; split <;> rfl

theorem UpdateExp_LevelCap (d : ℚ) (c : ATAM_CWCharacter) :
    (UpdateExp d c).LevelCap = c.LevelCap := by
  unfold UpdateExp; split <;> rfl

theorem UpdateExp_capped (d : ℚ) (c : ATAM_CWCharacter) (h : c.LevelCap ≤ c.CurrentLevel) :
    UpdateExp d c = c := by
  unfold UpdateExp; rw [if_neg (not_lt.mpr h)]

theorem BufferExp_CurrentLevel (c : ATAM_CWCharacter) :
    (BufferExp c).CurrentLevel = c.CurrentLevel := by
  unfold BufferExp; split <;> rfl

theorem BufferExp_LevelCap (c : ATAM_CWCharacter) :
    (BufferExp c).LevelCap = c.LevelCap := by
  unfold BufferExp; split <;> rfl

theorem BufferExp_SkillPoints (c : ATAM_CWCharacter) :
    (BufferExp c).SkillPoints = c.SkillPoints := by
  unfold BufferExp; split <;> rfl

theorem BufferExp_MaxExp (c : ATAM_CWCharacter) :
    (BufferExp c).MaxExp = c.MaxExp := by
  unfold BufferExp; split <;> rfl

theorem BufferExp_ExpGrowth (c : ATAM_CWCharacter) :
    (BufferExp c).ExpGrowth = c.ExpGrowth := by
  unfold BufferExp; split <;> rfl

theorem LevelUp_CurrentLevel (c : ATAM_CWCharacter) :
    (LevelUp c).CurrentLevel = c.CurrentLevel + 1 := by
  simp [LevelUp, BufferExp_CurrentLevel]

theorem LevelUp_LevelCap (c : ATAM_CWCharacter) :
    (LevelUp c).LevelCap = c.LevelCap := by
  simp [LevelUp, BufferExp_LevelCap]

theorem Tick_LevelCap (dt : ℚ) (c : ATAM_CWCharacter) :
    (Tick dt c).LevelCap = c.LevelCap := by
  simp only [Tick]
  split_ifs <;> simp [LevelCapped, LevelUp_LevelCap]

theorem Tick_CurrentLevel_ge (dt : ℚ) (c : ATAM_CWCharacter) :
    c.CurrentLevel ≤ (Tick dt c).CurrentLevel := by
  simp only [Tick]
  split_ifs <;> simp [LevelCapped, LevelUp_CurrentLevel]

theorem Tick_CurrentLevel_le (dt : ℚ) (c : ATAM_CWCharacter) (h : c.CurrentLevel ≤ c.LevelCap) :
    (Tick dt c).CurrentLevel ≤ c.LevelCap := by
  simp only [Tick]
  split_ifs with h1 h2 h3
  · simp only [LevelCapped, LevelUp_CurrentLevel]; omega
  · rw [LevelUp_CurrentLevel]; omega
  · exact h
  · exact h

theorem Tick_capped (dt : ℚ) (c : ATAM_CWCharacter) (h : c.LevelCap ≤ c.CurrentLevel) :
    Tick dt c = LevelCapped c := by
  unfold Tick
  have h1 : ¬ (c.CurrentExp ≥ c.MaxExp ∧ c.CurrentLevel < c.LevelCap) := fun hh => by omega
  rw [if_neg h1, if_pos (ge_iff_le.mpr h)]

/-- Under experience grants and frame checks the cap stays what it was and the
level, once at most the cap, stays at most the cap and at least what it was. -/
theorem runCalls_level_bounds (calls : List Call) (c : ATAM_CWCharacter)
    (h : c.CurrentLevel ≤ c.LevelCap) (hc : ∀ x ∈ calls, x.isExpOrTick = true) :
    (runCalls calls c).LevelCap = c.LevelCap ∧
      c.CurrentLevel ≤ (runCalls calls c).CurrentLevel ∧
      (runCalls calls c).CurrentLevel ≤ c.LevelCap := by
  induction calls generalizing c with
  | nil => exact ⟨rfl, le_refl _, h⟩
  | cons x xs ih =>
    have hx : x.isExpOrTick = true := hc x (List.mem_cons_self _ _)
    have hxs : ∀ y ∈ xs, y.isExpOrTick = true := fun y hy => hc y (List.mem_cons_of_mem _ hy)
    cases x with
    | UpdateExp d =>
      have h1 : (UpdateExp d c).CurrentLevel ≤ (UpdateExp d c).LevelCap := by
        rw [UpdateExp_CurrentLevel, UpdateExp_LevelCap]; exact h
      obtain ⟨a, b, e⟩ := ih (UpdateExp d c) h1 hxs
      rw [UpdateExp_CurrentLevel, UpdateExp_LevelCap] at *
      exact ⟨a, b, e⟩
    | Tick dt =>
      have h1 : (Tick dt c).CurrentLevel ≤ (Tick dt c).LevelCap := by
        rw [Tick_LevelCap]; exact Tick_CurrentLevel_le dt c h
      obtain ⟨a, b, e⟩ := ih (Tick dt c) h1 hxs
      rw [Tick_LevelCap] at a e
      exact ⟨a, le_trans (Tick_CurrentLevel_ge dt c) b, e⟩
    | SaveGame => simp [Call.isExpOrTick] at hx
    | LoadData => simp [Call.isExpOrTick] at hx
    | SkillPointsCost k => simp [Call.isExpOrTick] at hx

/-! ## C1 -/

/-- C1. Monotonic level under the cap: start from any character whose
`CurrentLevel` is at most `LevelCap` and make any finite sequence of
`UpdateExp` and `Tick` calls.  Then every further `UpdateExp` or `Tick` call
leaves `CurrentLevel` at least what it was just before that call and at most
`LevelCap`, and `LevelCap` itself is still the one of the start. -/
theorem level_monotone_under_cap (c : ATAM_CWCharacter) (h : c.CurrentLevel ≤ c.LevelCap)
    (calls : List Call) (hc : ∀ x ∈ calls, x.isExpOrTick = true)
    (call : Call) (hcall : call.isExpOrTick = true) :
    (runCalls calls c).CurrentLevel ≤ (call.run (runCalls calls c)).CurrentLevel ∧
      (call.run (runCalls calls c)).CurrentLevel ≤ (call.run (runCalls calls c)).LevelCap ∧
      (call.run (runCalls calls c)).LevelCap = c.LevelCap := by
  obtain ⟨a, _, e⟩ := runCalls_level_bounds calls c h hc
  have h1 : (runCalls calls c).CurrentLevel ≤ (runCalls calls c).LevelCap := by rw [a]; exact e
  have hs : ∀ x ∈ [call], x.isExpOrTick = true := by
    intro x hx; rw [List.mem_singleton] at hx; rw [hx]; exact hcall
  obtain ⟨a2, b2, e2⟩ := runCalls_level_bounds [call] (runCalls calls c) h1 hs
  simp only [runCalls] at a2 b2 e2
  exact ⟨b2, by rw [a2]; exact e2, by rw [a2, a]⟩

/-- Witness for C1: a fresh character gains 30, is checked, gains 80, and the
next frame check raises the level from 1 to 2, below the cap of 100. -/
theorem level_monotone_under_cap_witness :
    (runCalls [Call.UpdateExp 30, Call.Tick 0, Call.UpdateExp 80]
        (freshCharacter (0, 0) (0, 0))).CurrentLevel ≤
      ((Call.Tick 0).run (runCalls [Call.UpdateExp 30, Call.Tick 0, Call.UpdateExp 80]
        (freshCharacter (0, 0) (0, 0)))).CurrentLevel ∧
    ((Call.Tick 0).run (runCalls [Call.UpdateExp 30, Call.Tick 0, Call.UpdateExp 80]
        (freshCharacter (0, 0) (0, 0)))).CurrentLevel ≤
      ((Call.Tick 0).run (runCalls [Call.UpdateExp 30, Call.Tick 0, Call.UpdateExp 80]
        (freshCharacter (0, 0) (0, 0)))).LevelCap ∧
    ((Call.Tick 0).run (runCalls [Call.UpdateExp 30, Call.Tick 0, Call.UpdateExp 80]
        (freshCharacter (0, 0) (0, 0)))).LevelCap = (freshCharacter (0, 0) (0, 0)).LevelCap :=
  level_monotone_under_cap (freshCharacter (0, 0) (0, 0)) (by decide)
    [Call.UpdateExp 30, Call.Tick 0, Call.UpdateExp 80] (by decide) (Call.Tick 0) (by decide)

/-! ## C2 -/

theorem BufferExp_save (c : ATAM_CWCharacter) :
    (BufferExp c).hasSaved = c.hasSaved ∧
      (BufferExp c).ExpProgressData = c.ExpProgressData ∧
      (BufferExp c).LevelProgressData = c.LevelProgressData := by
  unfold BufferExp; split <;> exact ⟨rfl, rfl, rfl⟩

theorem LevelUp_save (c : ATAM_CWCharacter) :
    (LevelUp c).hasSaved = c.hasSaved ∧
      (LevelUp c).ExpProgressData = c.ExpProgressData ∧
      (LevelUp c).LevelProgressData = c.LevelProgressData := by
  obtain ⟨a, b, e⟩ := BufferExp_save
    { c with CurrentLevel := c.CurrentLevel + 1, SkillPoints := c.SkillPoints + 1 }
  exact ⟨a, b, e⟩

theorem Tick_save (dt : ℚ) (c : ATAM_CWCharacter) :
    (Tick dt c).hasSaved = c.hasSaved ∧
      (Tick dt c).ExpProgressData = c.ExpProgressData ∧
      (Tick dt c).LevelProgressData = c.LevelProgressData := by
  simp only [Tick]
  split_ifs
  · exact LevelUp_save c
  · exact LevelUp_save c
  · exact ⟨rfl, rfl, rfl⟩
  · exact ⟨rfl, rfl, rfl⟩

theorem UpdateExp_save (d : ℚ) (c : ATAM_CWCharacter) :
    (UpdateExp d c).hasSaved = c.hasSaved ∧
      (UpdateExp d c).ExpProgressData = c.ExpProgressData ∧
      (UpdateExp d c).LevelProgressData = c.LevelProgressData := by
  unfold UpdateExp; split <;> exact ⟨rfl, rfl, rfl⟩

theorem SkillPointsCost_save (k : Int) (c : ATAM_CWCharacter) :
    (SkillPointsCost k c).hasSaved = c.hasSaved ∧
      (SkillPointsCost k c).ExpProgressData = c.ExpProgressData ∧
      (SkillPointsCost k c).LevelProgressData = c.LevelProgressData := by
  unfold SkillPointsCost; split <;> exact ⟨rfl, rfl, rfl⟩

/-- Experience grants, frame checks and spending never write the save arrays
or the `hasSaved` flag. -/
theorem runCalls_play_save (calls : List Call) (c : ATAM_CWCharacter)
    (hc : ∀ x ∈ calls, x.isPlay = true) :
    (runCalls calls c).hasSaved = c.hasSaved ∧
      (runCalls calls c).ExpProgressData = c.ExpProgressData ∧
      (runCalls calls c).LevelProgressData = c.LevelProgressData := by
  induction calls generalizing c with
  | nil => exact ⟨rfl, rfl, rfl⟩
  | cons x xs ih =>
    have hx : x.isPlay = true := hc x (List.mem_cons_self _ _)
    have hxs : ∀ y ∈ xs, y.isPlay = true := fun y hy => hc y (List.mem_cons_of_mem _ hy)
    obtain ⟨a, b, e⟩ := ih (x.run c) hxs
    have step : (x.run c).hasSaved = c.hasSaved ∧
        (x.run c).ExpProgressData = c.ExpProgressData ∧
        (x.run c).LevelProgressData = c.LevelProgressData := by
      cases x with
      | UpdateExp d => exact UpdateExp_save d c
      | Tick dt => exact Tick_save dt c
      | SaveGame => simp [Call.isPlay] at hx
      | LoadData => simp [Call.isPlay] at hx
      | SkillPointsCost k => exact SkillPointsCost_save k c
    simp only [runCalls]
    exact ⟨a.trans step.1, b.trans step.2.1, e.trans step.2.2⟩

/-- C2. Save/load round trip: save a character whose `MaxExp` is positive,
then make any finite sequence of `UpdateExp`, `Tick` and `SkillPointsCost`
calls (none at all included), then load.  `CurrentExp`, `MaxExp`,
`CurrentLevel` and `SkillPoints` are then exactly what they were at the moment
of the save, and the fraction recomputed by the load is the saved
`CurrentExp / MaxExp`. -/
theorem save_load_round_trip (c : ATAM_CWCharacter) (h : 0 < c.MaxExp)
    (calls : List Call) (hc : ∀ x ∈ calls, x.isPlay = true) :
    (LoadData (runCalls calls (SaveGame c))).CurrentExp = c.CurrentExp ∧
      (LoadData (runCalls calls (SaveGame c))).MaxExp = c.MaxExp ∧
      (LoadData (runCalls calls (SaveGame c))).CurrentLevel = c.CurrentLevel ∧
      (LoadData (runCalls calls (SaveGame c))).SkillPoints = c.SkillPoints ∧
      (LoadData (runCalls calls (SaveGame c))).ExpPercentage =
        some (c.CurrentExp / c.MaxExp) := by
  obtain ⟨a, b, e⟩ := runCalls_play_save calls (SaveGame c) hc
  have a1 : (runCalls calls (SaveGame c)).hasSaved = true := a
  have b1 : (runCalls calls (SaveGame c)).ExpProgressData = (c.CurrentExp, c.MaxExp) := b
  have e1 : (runCalls calls (SaveGame c)).LevelProgressData =
      (c.CurrentLevel, c.SkillPoints) := e
  have hne : c.MaxExp ≠ 0 := ne_of_gt h
  unfold LoadData
  rw [if_pos a1]
  simp [b1, e1, fdiv, hne]

/-- Witness for C2: a fresh character is saved, gains 110, levels up, spends
its skill point, and is loaded back. -/
theorem save_load_round_trip_witness :
    (LoadData (runCalls [Call.UpdateExp 110, Call.Tick 0, Call.SkillPointsCost 1]
        (SaveGame (freshCharacter (0, 0) (0, 0))))).CurrentExp = 0 ∧
      (LoadData (runCalls [Call.UpdateExp 110, Call.Tick 0, Call.SkillPointsCost 1]
        (SaveGame (freshCharacter (0, 0) (0, 0))))).MaxExp = 100 ∧
      (LoadData (runCalls [Call.UpdateExp 110, Call.Tick 0, Call.SkillPointsCost 1]
        (SaveGame (freshCharacter (0, 0) (0, 0))))).CurrentLevel = 1 ∧
      (LoadData (runCalls [Call.UpdateExp 110, Call.Tick 0, Call.SkillPointsCost 1]
        (SaveGame (freshCharacter (0, 0) (0, 0))))).SkillPoints = 0 ∧
      (LoadData (runCalls [Call.UpdateExp 110, Call.Tick 0, Call.SkillPointsCost 1]
        (SaveGame (freshCharacter (0, 0) (0, 0))))).ExpPercentage = some (0 / 100) :=
  save_load_round_trip (freshCharacter (0, 0) (0, 0)) (by decide!)
    [Call.UpdateExp 110, Call.Tick 0, Call.SkillPointsCost 1] (by decide)

/-! ## Single precision -/

theorem pow2_eq_zpow (k : Int) : pow2 k = (2 : ℚ) ^ k := by
  unfold pow2
  split_ifs with h
  · obtain ⟨n, rfl⟩ := Int.eq_ofNat_of_zero_le h
    simp
  · obtain ⟨n, rfl⟩ := Int.exists_eq_neg_ofNat (le_of_lt (not_le.mp h))
    simp

theorem pow2_pos (k : Int) : 0 < pow2 k := by
  rw [pow2_eq_zpow]
  exact zpow_pos (by norm_num) k

theorem pow2_succ (k : Int) : pow2 (k + 1) = 2 * pow2 k := by
  rw [pow2_eq_zpow, pow2_eq_zpow, zpow_add_one₀ (by norm_num : (2 : ℚ) ≠ 0)]
  ring

theorem pow2_lt_iff (j k : Int) : pow2 j < pow2 k ↔ j < k := by
  rw [pow2_eq_zpow, pow2_eq_zpow]
  exact zpow_lt_zpow_iff_right₀ (by norm_num)

theorem pow2_le_iff (j k : Int) : pow2 j ≤ pow2 k ↔ j ≤ k := by
  rw [pow2_eq_zpow, pow2_eq_zpow]
  exact zpow_le_zpow_iff_right₀ (by norm_num)

theorem log2Aux_spec : ∀ (fuel n : Nat), n ≤ fuel → 1 ≤ n →
    2 ^ log2Aux fuel n ≤ n ∧ n < 2 ^ (log2Aux fuel n + 1)
  | 0, n, h, h1 => by omega
  | fuel + 1, n, h, h1 => by
    simp only [log2Aux]
    split_ifs with h2
    · have : n = 1 := by omega
      subst this
      simp
    · have ih := log2Aux_spec fuel (n / 2) (by omega) (by omega)
      obtain ⟨a, b⟩ := ih
      constructor
      · rw [pow_succ]; omega
      · rw [pow_succ]; omega

theorem log2_spec (n : Nat) (h : 1 ≤ n) : 2 ^ log2 n ≤ n ∧ n < 2 ^ (log2 n + 1) :=
  log2Aux_spec n n (le_refl n) h

/-- For a positive rational the binary exponent brackets it between two
consecutive powers of two. -/
theorem ilog2_spec (a : ℚ) (ha : 0 < a) : pow2 (ilog2 a) ≤ a ∧ a < pow2 (ilog2 a + 1) := by
  have hn : 0 < a.num := Rat.num_pos.mpr ha
  have hd : 0 < a.den := a.den_pos
  have hnat : 1 ≤ a.num.natAbs := by omega
  obtain ⟨n1, n2⟩ := log2_spec a.num.natAbs hnat
  obtain ⟨d1, d2⟩ := log2_spec a.den hd
  have ea : a = (a.num.natAbs : ℚ) / (a.den : ℚ) := by
    have h1 : ((a.num.natAbs : ℕ) : ℚ) = (a.num : ℚ) := by
      rw [← Int.cast_natCast, Int.natAbs_of_nonneg (le_of_lt hn)]
    rw [h1]
    exact (Rat.num_div_den a).symm
  have hdq : (0 : ℚ) < (a.den : ℚ) := by exact_mod_cast hd
  have n1q : ((2 : ℚ) ^ log2 a.num.natAbs) ≤ (a.num.natAbs : ℚ) := by exact_mod_cast n1
  have n2q : (a.num.natAbs : ℚ) < (2 : ℚ) ^ (log2 a.num.natAbs + 1) := by exact_mod_cast n2
  have d1q : ((2 : ℚ) ^ log2 a.den) ≤ (a.den : ℚ) := by exact_mod_cast d1
  have d2q : (a.den : ℚ) < (2 : ℚ) ^ (log2 a.den + 1) := by exact_mod_cast d2
  -- the candidate exponent
  have two : (2 : ℚ) ≠ 0 := by norm_num
  have hk : ∀ j : ℤ, pow2 ((log2 a.num.natAbs : ℤ) - (log2 a.den : ℤ) + j) =
      (2 : ℚ) ^ log2 a.num.natAbs / (2 : ℚ) ^ log2 a.den * (2 : ℚ) ^ j := by
    intro j
    rw [pow2_eq_zpow, zpow_add₀ two, zpow_sub₀ two, zpow_natCast, zpow_natCast]
  have pn : (0 : ℚ) < (2 : ℚ) ^ log2 a.num.natAbs := by positivity
  have pd : (0 : ℚ) < (2 : ℚ) ^ log2 a.den := by positivity
  have up : a < pow2 ((log2 a.num.natAbs : ℤ) - (log2 a.den : ℤ) + 1) := by
    rw [hk 1, zpow_one, div_mul_eq_mul_div]
    conv_lhs => rw [ea]
    rw [div_lt_div_iff₀ hdq pd]
    rw [pow_succ] at n2q
    nlinarith
  have lo : pow2 ((log2 a.num.natAbs : ℤ) - (log2 a.den : ℤ) + (-1)) < a := by
    have e2 : (2 : ℚ) ^ (-1 : ℤ) = 1 / 2 := by norm_num
    rw [hk (-1), e2, div_mul_eq_mul_div]
    conv_rhs => rw [ea]
    rw [div_lt_div_iff₀ pd hdq]
    rw [pow_succ] at d2q
    nlinarith
  unfold ilog2
  simp only []
  split_ifs with h
  · exact ⟨h, up⟩
  · refine ⟨le_of_lt ?_, ?_⟩
    · have e : (log2 a.num.natAbs : ℤ) - (log2 a.den : ℤ) - 1 =
          (log2 a.num.natAbs : ℤ) - (log2 a.den : ℤ) + (-1) := by ring
      rw [e]; exact lo
    · have e : (log2 a.num.natAbs : ℤ) - (log2 a.den : ℤ) - 1 + 1 =
          (log2 a.num.natAbs : ℤ) - (log2 a.den : ℤ) := by ring
      rw [e]; exact not_le.mp h

/-- The binary exponent is the only one that brackets. -/
theorem ilog2_eq (a : ℚ) (k : Int) (h1 : pow2 k ≤ a) (h2 : a < pow2 (k + 1)) : ilog2 a = k := by
  have ha : 0 < a := lt_of_lt_of_le (pow2_pos k) h1
  obtain ⟨s1, s2⟩ := ilog2_spec a ha
  have a1 : ilog2 a < k + 1 := (pow2_lt_iff _ _).mp (lt_of_le_of_lt s1 h2)
  have a2 : k < ilog2 a + 1 := (pow2_lt_iff _ _).mp (lt_of_le_of_lt h1 s2)
  omega

theorem roundHalfEven_intCast (m : ℤ) : roundHalfEven (m : ℚ) = m := by
  unfold roundHalfEven
  simp

theorem roundHalfEven_cases (y : ℚ) :
    roundHalfEven y = ⌊y⌋ ∨ (roundHalfEven y = ⌊y⌋ + 1 ∧ (1 : ℚ) / 2 ≤ y - ⌊y⌋) := by
  unfold roundHalfEven
  simp only []
  split_ifs with h1 h2 h3
  · left; rfl
  · right; exact ⟨rfl, le_of_lt h2⟩
  · left; rfl
  · right; exact ⟨rfl, not_lt.mp h1⟩

theorem le_roundHalfEven (N : ℤ) (y : ℚ) (h : (N : ℚ) ≤ y) : N ≤ roundHalfEven y := by
  have hf : N ≤ ⌊y⌋ := Int.le_floor.mpr h
  rcases roundHalfEven_cases y with e | ⟨e, _⟩ <;> rw [e] <;> omega

theorem roundHalfEven_le (N : ℤ) (y : ℚ) (h : y ≤ (N : ℚ)) : roundHalfEven y ≤ N := by
  rcases roundHalfEven_cases y with e | ⟨e, hh⟩
  · rw [e]
    have : ((⌊y⌋ : ℤ) : ℚ) ≤ (N : ℚ) := le_trans (Int.floor_le y) h
    exact_mod_cast this
  · rw [e]
    have : ((⌊y⌋ : ℤ) : ℚ) < (N : ℚ) := by linarith
    have : ⌊y⌋ < N := by exact_mod_cast this
    omega

theorem abs_roundHalfEven_le (T : ℤ) (y : ℚ) (h : |y| ≤ (T : ℚ)) : |roundHalfEven y| ≤ T := by
  rw [abs_le] at h ⊢
  constructor
  · apply le_roundHalfEven
    push_cast
    exact h.1
  · exact roundHalfEven_le T y h.2

theorem le_abs_roundHalfEven (T : ℤ) (y : ℚ) (h : (T : ℚ) ≤ |y|) : T ≤ |roundHalfEven y| := by
  rcases le_abs.mp h with h1 | h1
  · exact le_trans (le_roundHalfEven T y h1) (le_abs_self _)
  · have h2 : y ≤ ((-T : ℤ) : ℚ) := by push_cast; linarith
    have := roundHalfEven_le (-T) y h2
    have := neg_abs_le (roundHalfEven y)
    omega

/-- A multiple of its own spacing is a `float`: rounding leaves it alone. -/
theorem f32_eq_self (y : ℚ) (m : ℤ) (h : y = (m : ℚ) * pow2 (quantum y)) : f32 y = y := by
  unfold f32
  split_ifs with h0
  · exact h0.symm
  · have hp : pow2 (quantum y) ≠ 0 := ne_of_gt (pow2_pos _)
    have e : y / pow2 (quantum y) = (m : ℚ) := by
      rw [div_eq_iff hp]; exact h
    rw [e, roundHalfEven_intCast]
    exact h.symm

theorem pow2_add_23 (k : Int) : pow2 k = 8388608 * pow2 (k - 23) := by
  rw [pow2_eq_zpow, pow2_eq_zpow, zpow_sub₀ (by norm_num : (2 : ℚ) ≠ 0)]
  norm_num
  ring

/-- Rounding to `float` yields a `float`: rounding again changes nothing. -/
theorem f32_idem (x : ℚ) : f32 (f32 x) = f32 x := by
  by_cases hx : x = 0
  · simp [f32, hx]
  have hy : f32 x = (roundHalfEven (x / pow2 (quantum x)) : ℚ) * pow2 (quantum x) := by
    unfold f32; rw [if_neg hx]
  generalize hq : quantum x = q at hy
  generalize hm : roundHalfEven (x / pow2 q) = m at hy
  rw [hy]
  by_cases hm0 : m = 0
  · simp [hm0, f32]
  have hpq : 0 < pow2 q := pow2_pos q
  have hxpos : 0 < |x| := abs_pos.mpr hx
  obtain ⟨s1, s2⟩ := ilog2_spec |x| hxpos
  have habs : |x / pow2 q| = |x| / pow2 q := by
    rw [abs_div, abs_of_pos hpq]
  have hyabs : |(m : ℚ) * pow2 q| = ((|m| : ℤ) : ℚ) * pow2 q := by
    rw [abs_mul, abs_of_pos hpq]; push_cast; rfl
  have hM1 : 1 ≤ |m| := Int.one_le_abs hm0
  have hM1q : (1 : ℚ) ≤ ((|m| : ℤ) : ℚ) := by exact_mod_cast hM1
  by_cases he : -126 ≤ ilog2 |x|
  · -- normal range
    have hqe : q = ilog2 |x| - 23 := by
      rw [← hq]; unfold quantum; rw [max_eq_left he]
    have e1 : pow2 (ilog2 |x|) = 8388608 * pow2 q := by rw [hqe]; exact pow2_add_23 _
    have e2 : pow2 (ilog2 |x| + 1) = 16777216 * pow2 q := by
      rw [pow2_succ, e1]; ring
    have lo : ((8388608 : ℤ) : ℚ) ≤ |x / pow2 q| := by
      rw [habs, le_div_iff₀ hpq]; push_cast; rw [← e1]; exact s1
    have hi : |x / pow2 q| ≤ ((16777216 : ℤ) : ℚ) := by
      rw [habs, div_le_iff₀ hpq]; push_cast; rw [← e2]; exact le_of_lt s2
    have mlo : (8388608 : ℤ) ≤ |m| := by rw [← hm]; exact le_abs_roundHalfEven _ _ lo
    have mhi : |m| ≤ (16777216 : ℤ) := by rw [← hm]; exact abs_roundHalfEven_le _ _ hi
    have mloq : (8388608 : ℚ) ≤ ((|m| : ℤ) : ℚ) := by exact_mod_cast mlo
    have mhiq : ((|m| : ℤ) : ℚ) ≤ (16777216 : ℚ) := by exact_mod_cast mhi
    by_cases htop : |m| = 16777216
    · -- the significand overflowed into the next binade
      have hq1 : quantum ((m : ℚ) * pow2 q) = q + 1 := by
        have b1 : pow2 (ilog2 |x| + 1) ≤ |(m : ℚ) * pow2 q| := by
          rw [hyabs, e2, htop]; push_cast; exact le_refl _
        have b2 : |(m : ℚ) * pow2 q| < pow2 (ilog2 |x| + 1 + 1) := by
          rw [hyabs, pow2_succ, e2, htop]; push_cast; linarith
        unfold quantum
        rw [ilog2_eq _ _ b1 b2, max_eq_left (by omega)]
        omega
      have hdiv : ∃ m2 : ℤ, m = 2 * m2 := by
        rcases abs_eq (by norm_num : (0 : ℤ) ≤ 16777216) |>.mp htop with h | h
        · exact ⟨8388608, by rw [h]; norm_num⟩
        · exact ⟨-8388608, by rw [h]; norm_num⟩
      obtain ⟨m2, hm2⟩ := hdiv
      apply f32_eq_self _ m2
      rw [hq1, pow2_succ, hm2]; push_cast; ring
    · have hlt : |m| < 16777216 := lt_of_le_of_ne mhi htop
      have hltq : ((|m| : ℤ) : ℚ) < (16777216 : ℚ) := by exact_mod_cast hlt
      have hq0 : quantum ((m : ℚ) * pow2 q) = q := by
        have b1 : pow2 (ilog2 |x|) ≤ |(m : ℚ) * pow2 q| := by
          rw [hyabs, e1]; exact mul_le_mul_of_nonneg_right mloq (le_of_lt hpq)
        have b2 : |(m : ℚ) * pow2 q| < pow2 (ilog2 |x| + 1) := by
          rw [hyabs, e2]; exact mul_lt_mul_of_pos_right hltq hpq
        unfold quantum
        rw [ilog2_eq _ _ b1 b2, max_eq_left he]
        omega
      apply f32_eq_self _ m
      rw [hq0]
  · -- subnormal range
    have he2 : ilog2 |x| + 1 ≤ -126 := by omega
    have hqe : q = -149 := by
      rw [← hq]; unfold quantum; rw [max_eq_right (by omega)]; norm_num
    have e1 : pow2 (-126) = 8388608 * pow2 q := by
      rw [hqe]; have := pow2_add_23 (-126); norm_num at this; exact this
    have s3 : |x| < pow2 (-126) := lt_of_lt_of_le s2 ((pow2_le_iff _ _).mpr he2)
    have hi : |x / pow2 q| ≤ ((8388608 : ℤ) : ℚ) := by
      rw [habs, div_le_iff₀ hpq]; push_cast; rw [← e1]; exact le_of_lt s3
    have mhi : |m| ≤ (8388608 : ℤ) := by rw [← hm]; exact abs_roundHalfEven_le _ _ hi
    have mhiq : ((|m| : ℤ) : ℚ) ≤ (8388608 : ℚ) := by exact_mod_cast mhi
    have hypos : 0 < |(m : ℚ) * pow2 q| := by
      rw [hyabs]; exact mul_pos (by linarith) hpq
    have hq0 : quantum ((m : ℚ) * pow2 q) = q := by
      obtain ⟨t1, _⟩ := ilog2_spec _ hypos
      have b : |(m : ℚ) * pow2 q| ≤ pow2 (-126) := by
        rw [hyabs, e1]; exact mul_le_mul_of_nonneg_right mhiq (le_of_lt hpq)
      have : ilog2 |(m : ℚ) * pow2 q| ≤ -126 := (pow2_le_iff _ _).mp (le_trans t1 b)
      unfold quantum
      rw [max_eq_right this, hqe]; norm_num
    apply f32_eq_self _ m
    rw [hq0]

/-! ## C3 -/

theorem round_intCast (n : ℤ) : round (n : ℚ) = (n : ℚ) := by
  unfold round
  split
  · have : ⌊(n : ℚ) + 1 / 2⌋ = n := by
      rw [Int.floor_eq_iff]; constructor <;> linarith
    rw [this]
  · have : ⌈(n : ℚ) - 1 / 2⌉ = n := by
      rw [Int.ceil_eq_iff]; constructor <;> linarith
    rw [this]

theorem f32_zero : f32 0 = 0 := by
  unfold f32
  rw [if_pos rfl]

theorem BufferExp32_fields (c : ATAM_CWCharacter) :
    (F32.BufferExp c).CurrentLevel = c.CurrentLevel ∧
      (F32.BufferExp c).SkillPoints = c.SkillPoints ∧
      (F32.BufferExp c).LevelCap = c.LevelCap ∧
      (F32.BufferExp c).MaxExp = c.MaxExp ∧
      (F32.BufferExp c).ExpGrowth = c.ExpGrowth := by
  unfold F32.BufferExp
  split <;> exact ⟨rfl, rfl, rfl, rfl, rfl⟩

theorem BufferExp32_CurrentExp (c : ATAM_CWCharacter) :
    (F32.BufferExp c).CurrentExp = round (f32 (c.CurrentExp - c.MaxExp)) := by
  unfold F32.BufferExp
  split_ifs with h
  · show round (f32 (0 + f32 (c.CurrentExp - c.MaxExp))) = round (f32 (c.CurrentExp - c.MaxExp))
    rw [zero_add, f32_idem]
  · have e : c.CurrentExp - c.MaxExp = 0 := by rw [not_not.mp h]; exact sub_self _
    have r0 : round 0 = 0 := by
      have := round_intCast 0
      simpa using this
    rw [e, f32_zero, r0]

theorem LevelUp32_fields (c : ATAM_CWCharacter) :
    (F32.LevelUp c).CurrentLevel = c.CurrentLevel + 1 ∧
      (F32.LevelUp c).SkillPoints = c.SkillPoints + 1 ∧
      (F32.LevelUp c).LevelCap = c.LevelCap ∧
      (F32.LevelUp c).MaxExp = f32 (c.MaxExp * c.ExpGrowth) ∧
      (F32.LevelUp c).CurrentExp = round (f32 (c.CurrentExp - c.MaxExp)) := by
  obtain ⟨a, b, e, f, g⟩ := BufferExp32_fields
    { c with CurrentLevel := c.CurrentLevel + 1, SkillPoints := c.SkillPoints + 1 }
  have h := BufferExp32_CurrentExp
    { c with CurrentLevel := c.CurrentLevel + 1, SkillPoints := c.SkillPoints + 1 }
  refine ⟨a, b, e, ?_, h⟩
  show f32 ((F32.BufferExp _).MaxExp * (F32.BufferExp _).ExpGrowth) = _
  rw [f, g]

/-- C3, the claim at the character `BeginPlay` makes: `ExpGrowth` holds the
`float` literal `1.2f`, which is 5033165/4194304 and not 1.2 (no `float` is
1.2), and after `UpdateExp(30)`, `Tick`, `UpdateExp(80)`, `Tick` the member
`MaxExp` is the `float` product 15728641/131072, about 120.0000076, not 120. -/
theorem levelling_scenario_maxExp_not_120 :
    f32 (6 / 5) ≠ 6 / 5 ∧
      freshCharacter32.ExpGrowth = 5033165 / 4194304 ∧
      (F32.Tick 0 (F32.UpdateExp 80 (F32.Tick 0 (F32.UpdateExp 30 freshCharacter32)))).MaxExp =
        15728641 / 131072 ∧
      (F32.Tick 0 (F32.UpdateExp 80 (F32.Tick 0 (F32.UpdateExp 30 freshCharacter32)))).MaxExp ≠
        120 := by
  decide!

/-- C3 as amended. The levelling scenario in single precision: from any
character with `CurrentLevel = 1`, `CurrentExp = 0`, `MaxExp = 100`,
`ExpGrowth = 1.2f` (the `float` 5033165/4194304), `SkillPoints = 0` and
`LevelCap = 100`, `UpdateExp(30)` gives `CurrentExp = 30` and the following
`Tick` changes nothing (no level-up); a further `UpdateExp(80)` gives
`CurrentExp = 110`, and the next `Tick` yields `CurrentLevel = 2`,
`SkillPoints = 1`, `CurrentExp = 10` and `MaxExp = 15728641/131072`, the
`float` product of 100 and `1.2f`. -/
theorem levelling_scenario_f32 (c : ATAM_CWCharacter) (dt1 dt2 : ℚ)
    (hl : c.CurrentLevel = 1) (he : c.CurrentExp = 0) (hm : c.MaxExp = 100)
    (hg : c.ExpGrowth = 5033165 / 4194304) (hs : c.SkillPoints = 0)
    (hcap : c.LevelCap = 100) :
    (F32.UpdateExp 30 c).CurrentExp = 30 ∧
      F32.Tick dt1 (F32.UpdateExp 30 c) = F32.UpdateExp 30 c ∧
      (F32.UpdateExp 80 (F32.Tick dt1 (F32.UpdateExp 30 c))).CurrentExp = 110 ∧
      (F32.Tick dt2 (F32.UpdateExp 80 (F32.Tick dt1 (F32.UpdateExp 30 c)))).CurrentLevel = 2 ∧
      (F32.Tick dt2 (F32.UpdateExp 80 (F32.Tick dt1 (F32.UpdateExp 30 c)))).SkillPoints = 1 ∧
      (F32.Tick dt2 (F32.UpdateExp 80 (F32.Tick dt1 (F32.UpdateExp 30 c)))).CurrentExp = 10 ∧
      (F32.Tick dt2 (F32.UpdateExp 80 (F32.Tick dt1 (F32.UpdateExp 30 c)))).MaxExp =
        15728641 / 131072 := by
  have r10 : round 10 = 10 := by
    have := round_intCast 10
    norm_num at this
    exact this
  have f30 : f32 ((0 : ℚ) + 30) = 30 := by decide!
  have f110 : f32 ((30 : ℚ) + 80) = 110 := by decide!
  have f10 : f32 ((110 : ℚ) - 100) = 10 := by decide!
  have fmax : f32 ((100 : ℚ) * (5033165 / 4194304)) = 15728641 / 131072 := by decide!
  have ex : ∀ (x : ℚ) (s : ATAM_CWCharacter), s.CurrentLevel < s.LevelCap →
      F32.UpdateExp x s =
        { s with
          PreviousCurrentExp := s.CurrentExp
          CurrentExp := f32 (s.CurrentExp + x)
          ExpLeft := f32 (s.MaxExp - f32 (s.CurrentExp + x))
          ExpPercentage := fdiv32 (f32 (s.CurrentExp + x)) s.MaxExp } := by
    intro x s h
    unfold F32.UpdateExp
    rw [if_pos h]
  have hc : c.CurrentLevel < c.LevelCap := by rw [hl, hcap]; decide
  have u1 : (F32.UpdateExp 30 c).CurrentExp = 30 := by
    rw [ex 30 c hc]
    show f32 (c.CurrentExp + 30) = 30
    rw [he, f30]
  have u1m : (F32.UpdateExp 30 c).MaxExp = 100 := by rw [ex 30 c hc]; exact hm
  have u1l : (F32.UpdateExp 30 c).CurrentLevel = 1 := by rw [ex 30 c hc]; exact hl
  have u1c : (F32.UpdateExp 30 c).LevelCap = 100 := by rw [ex 30 c hc]; exact hcap
  have u1g : (F32.UpdateExp 30 c).ExpGrowth = 5033165 / 4194304 := by
    rw [ex 30 c hc]; exact hg
  have u1s : (F32.UpdateExp 30 c).SkillPoints = 0 := by rw [ex 30 c hc]; exact hs
  have t1 : F32.Tick dt1 (F32.UpdateExp 30 c) = F32.UpdateExp 30 c := by
    simp only [F32.Tick, u1, u1m, u1l, u1c]
    norm_num [u1l, u1c]
  rw [t1]
  generalize F32.UpdateExp 30 c = d at u1 u1m u1l u1c u1g u1s
  have hd : d.CurrentLevel < d.LevelCap := by rw [u1l, u1c]; decide
  have v1 : (F32.UpdateExp 80 d).CurrentExp = 110 := by
    rw [ex 80 d hd]
    show f32 (d.CurrentExp + 80) = 110
    rw [u1, f110]
  have v1m : (F32.UpdateExp 80 d).MaxExp = 100 := by rw [ex 80 d hd]; exact u1m
  have v1l : (F32.UpdateExp 80 d).CurrentLevel = 1 := by rw [ex 80 d hd]; exact u1l
  have v1c : (F32.UpdateExp 80 d).LevelCap = 100 := by rw [ex 80 d hd]; exact u1c
  have v1g : (F32.UpdateExp 80 d).ExpGrowth = 5033165 / 4194304 := by
    rw [ex 80 d hd]; exact u1g
  have v1s : (F32.UpdateExp 80 d).SkillPoints = 0 := by rw [ex 80 d hd]; exact u1s
  generalize F32.UpdateExp 80 d = g at v1 v1m v1l v1c v1g v1s
  have hup : g.CurrentExp ≥ g.MaxExp ∧ g.CurrentLevel < g.LevelCap := by
    rw [v1, v1m, v1l, v1c]; decide!
  obtain ⟨llev, lsp, lcap, lmax, lcur⟩ := LevelUp32_fields g
  rw [v1l] at llev
  rw [v1s] at lsp
  rw [v1c] at lcap
  rw [v1m, v1g, fmax] at lmax
  rw [v1, v1m, f10, r10] at lcur
  have tk : F32.Tick dt2 g = F32.LevelUp g := by
    unfold F32.Tick
    simp only [if_pos hup]
    rw [if_neg (by rw [llev, lcap]; decide)]
  rw [tk]
  exact ⟨u1, rfl, v1, llev, lsp, lcur, lmax⟩

/-- Witness for C3: the character `BeginPlay` makes is such a start. -/
theorem levelling_scenario_f32_witness :
    (F32.UpdateExp 30 freshCharacter32).CurrentExp = 30 ∧
      F32.Tick 0 (F32.UpdateExp 30 freshCharacter32) = F32.UpdateExp 30 freshCharacter32 ∧
      (F32.UpdateExp 80 (F32.Tick 0 (F32.UpdateExp 30 freshCharacter32))).CurrentExp = 110 ∧
      (F32.Tick 0 (F32.UpdateExp 80 (F32.Tick 0
        (F32.UpdateExp 30 freshCharacter32)))).CurrentLevel = 2 ∧
      (F32.Tick 0 (F32.UpdateExp 80 (F32.Tick 0
        (F32.UpdateExp 30 freshCharacter32)))).SkillPoints = 1 ∧
      (F32.Tick 0 (F32.UpdateExp 80 (F32.Tick 0
        (F32.UpdateExp 30 freshCharacter32)))).CurrentExp = 10 ∧
      (F32.Tick 0 (F32.UpdateExp 80 (F32.Tick 0
        (F32.UpdateExp 30 freshCharacter32)))).MaxExp = 15728641 / 131072 :=
  levelling_scenario_f32 freshCharacter32 0 0 (by decide!) (by decide!) (by decide!)
    (by decide!) (by decide!) (by decide!)

/-! ## C4 -/

/-- At the cap, experience grants and frame checks keep the level, the cap,
the skill points and the experience. -/
theorem runCalls_capped (calls : List Call) (c : ATAM_CWCharacter)
    (h : c.CurrentLevel = c.LevelCap) (hc : ∀ x ∈ calls, x.isExpOrTick = true) :
    (runCalls calls c).CurrentLevel = c.CurrentLevel ∧
      (runCalls calls c).LevelCap = c.LevelCap ∧
      (runCalls calls c).SkillPoints = c.SkillPoints ∧
      (runCalls calls c).CurrentExp = c.CurrentExp := by
  induction calls generalizing c with
  | nil => exact ⟨rfl, rfl, rfl, rfl⟩
  | cons x xs ih =>
    have hx : x.isExpOrTick = true := hc x (List.mem_cons_self _ _)
    have hxs : ∀ y ∈ xs, y.isExpOrTick = true := fun y hy => hc y (List.mem_cons_of_mem _ hy)
    cases x with
    | UpdateExp d =>
      have e : (Call.UpdateExp d).run c = c := UpdateExp_capped d c (le_of_eq h.symm)
      simp only [runCalls, e]
      exact ih c h hxs
    | Tick dt =>
      have e : (Call.Tick dt).run c = LevelCapped c := Tick_capped dt c (le_of_eq h.symm)
      simp only [runCalls, e]
      exact ih (LevelCapped c) h hxs
    | SaveGame => simp [Call.isExpOrTick] at hx
    | LoadData => simp [Call.isExpOrTick] at hx
    | SkillPointsCost k => simp [Call.isExpOrTick] at hx

/-- C4. Cap freeze: from any character with `CurrentLevel = LevelCap`, every
finite sequence of `UpdateExp` and `Tick` calls leaves `CurrentLevel`,
`SkillPoints` and `CurrentExp` unchanged. -/
theorem cap_freeze (c : ATAM_CWCharacter) (h : c.CurrentLevel = c.LevelCap)
    (calls : List Call) (hc : ∀ x ∈ calls, x.isExpOrTick = true) :
    (runCalls calls c).CurrentLevel = c.CurrentLevel ∧
      (runCalls calls c).SkillPoints = c.SkillPoints ∧
      (runCalls calls c).CurrentExp = c.CurrentExp := by
  obtain ⟨a, _, b, e⟩ := runCalls_capped calls c h hc
  exact ⟨a, b, e⟩

/-- Witness for C4: the character that has climbed to level 100 is granted 30
experience, checked, granted 80 and checked again. -/
theorem cap_freeze_witness :
    (runCalls [Call.UpdateExp 30, Call.Tick 0, Call.UpdateExp 80, Call.Tick 0]
        atCap).CurrentLevel = atCap.CurrentLevel ∧
      (runCalls [Call.UpdateExp 30, Call.Tick 0, Call.UpdateExp 80, Call.Tick 0]
        atCap).SkillPoints = atCap.SkillPoints ∧
      (runCalls [Call.UpdateExp 30, Call.Tick 0, Call.UpdateExp 80, Call.Tick 0]
        atCap).CurrentExp = atCap.CurrentExp :=
  cap_freeze atCap (by decide!)
    [Call.UpdateExp 30, Call.Tick 0, Call.UpdateExp 80, Call.Tick 0] (by decide)

/-! ## C5 -/

/-- C5. Load without save is a no-op: when `hasSaved` is false, `LoadData`
returns the character as it was, every member included. -/
theorem load_without_save (c : ATAM_CWCharacter) (h : c.hasSaved = false) :
    LoadData c = c := by
  unfold LoadData
  simp [h]

/-- Witness for C5: a character that has gained experience and never saved. -/
theorem load_without_save_witness :
    LoadData (UpdateExp 30 (freshCharacter (7, 9) (3, 4))) =
      UpdateExp 30 (freshCharacter (7, 9) (3, 4)) :=
  load_without_save (UpdateExp 30 (freshCharacter (7, 9) (3, 4))) (by decide)

/-! ## C6 -/

/-- C6. Spend with no points available: when `SkillPoints` is 0 and the cost
is at least 1, `SkillPointsCost` (and so `SpendSkillPoints`) returns normally
with `SkillPoints` still 0; the only member it changes is the on-screen text,
which gains "No skill points to spend". -/
theorem spend_with_no_points (c : ATAM_CWCharacter) (Cost : Int)
    (hs : c.SkillPoints = 0) (_hk : 1 ≤ Cost) :
    (SkillPointsCost Cost c).SkillPoints = 0 ∧
      SkillPointsCost Cost c =
        { c with ScreenMessages := c.ScreenMessages ++ ["No skill points to spend"] } ∧
      SpendSkillPoints c = SkillPointsCost Cost c := by
  have e : ∀ k : Int, SkillPointsCost k c =
      { c with ScreenMessages := c.ScreenMessages ++ ["No skill points to spend"] } := by
    intro k
    unfold SkillPointsCost
    rw [if_neg (by rw [hs]; decide)]
  refine ⟨?_, e Cost, ?_⟩
  · rw [e Cost]; exact hs
  · unfold SpendSkillPoints; rw [e 1, e Cost]

/-- Witness for C6: a fresh character, which has no skill points, is charged 3. -/
theorem spend_with_no_points_witness :
    (SkillPointsCost 3 (freshCharacter (0, 0) (0, 0))).SkillPoints = 0 ∧
      SkillPointsCost 3 (freshCharacter (0, 0) (0, 0)) =
        { freshCharacter (0, 0) (0, 0) with
          ScreenMessages :=
            (freshCharacter (0, 0) (0, 0)).ScreenMessages ++ ["No skill points to spend"] } ∧
      SpendSkillPoints (freshCharacter (0, 0) (0, 0)) =
        SkillPointsCost 3 (freshCharacter (0, 0) (0, 0)) :=
  spend_with_no_points (freshCharacter (0, 0) (0, 0)) 3 (by decide) (by decide)

/-! ## C7 -/

/-- C8, the code at the failing input: a fresh character earns 100 experience,
levels up on the next frame (one skill point) and is charged 2 by
`SkillPointsCost`; the guard `SkillPoints > 0` lets the charge through and
`SkillPoints` ends at -1. -/
theorem skill_points_go_negative :
    (runCalls [Call.UpdateExp 100, Call.Tick 0]
        (freshCharacter (0, 0) (0, 0))).SkillPoints = 1 ∧
      (runCalls overspend (freshCharacter (0, 0) (0, 0))).SkillPoints = -1 := by
  decide!

/-- With charges of exactly 1, the only cost `SpendSkillPoints` passes, the
guard does keep non-negative skill points non-negative. -/
theorem SkillPointsCost_one_nonneg (c : ATAM_CWCharacter) (h : 0 ≤ c.SkillPoints) :
    0 ≤ (SpendSkillPoints c).SkillPoints := by
  unfold SpendSkillPoints SkillPointsCost
  split
  · show 0 ≤ c.SkillPoints - 1
    omega
  · exact h

/-! ## C9 -/

/-- At or above the cap a frame check copies `CurrentExp` into `MaxExp` and
`ExpOverflow` and writes nothing else: the cached `ExpPercentage` that
`GetExp` returns is the one from before the call. -/
theorem Tick_capped_fields (dt : ℚ) (c : ATAM_CWCharacter) (h : c.LevelCap ≤ c.CurrentLevel) :
    Tick dt c = { c with MaxExp := c.CurrentExp, ExpOverflow := c.CurrentExp } ∧
      (Tick dt c).MaxExp = (Tick dt c).CurrentExp ∧
      GetExp (Tick dt c) = GetExp c := by
  rw [Tick_capped dt c h]
  exact ⟨rfl, rfl, rfl⟩

/-- C9, the code at the failing input: the character that has climbed to the
cap (`CurrentLevel = LevelCap = 100`, `CurrentExp = 65492511111`) is checked
once more.  `MaxExp` then equals `CurrentExp`, but `GetExp` still returns the
fraction computed by the last level-up, which is not 1. -/
theorem capped_bar_not_full :
    atCap.LevelCap ≤ atCap.CurrentLevel ∧
      atCap.CurrentExp = 65492511111 ∧
      (Tick 0 atCap).MaxExp = (Tick 0 atCap).CurrentExp ∧
      GetExp (Tick 0 atCap) = GetExp atCap ∧
      GetExp (Tick 0 atCap) ≠ some 1 := by
  decide!

/-- The stale bar of C9 in single precision: the same calls bring the
character to the cap with `CurrentExp = 65492389888`; one more frame check
makes `MaxExp` equal to `CurrentExp`, and `GetExp` still returns
9950515/1048576, about 9.49. -/
theorem capped_bar_not_full_f32 :
    atCap32.CurrentLevel = 100 ∧
      atCap32.LevelCap = 100 ∧
      atCap32.SkillPoints = 99 ∧
      atCap32.CurrentExp = 65492389888 ∧
      (F32.Tick 0 atCap32).MaxExp = (F32.Tick 0 atCap32).CurrentExp ∧
      GetExp (F32.Tick 0 atCap32) = some (9950515 / 1048576) := by
  decide!

/-! ## C10 -/

theorem round_eq_roundHalfAwayFromZero (x : ℚ) : round x = roundHalfAwayFromZero x := by
  unfold round roundHalfAwayFromZero
  split_ifs with h
  · rw [abs_of_nonneg h]
  · have hx : x < 0 := not_le.mp h
    rw [abs_of_neg hx]
    have e : x - 1 / 2 = -(-x + 1 / 2) := by ring
    rw [e, Int.ceil_neg]
    push_cast
    rfl

theorem round_isInt (x : ℚ) : ∃ n : ℤ, round x = (n : ℚ) := by
  unfold round
  split
  · exact ⟨_, rfl⟩
  · exact ⟨_, rfl⟩

theorem abs_round_sub_le (x : ℚ) : |round x - x| ≤ 1 / 2 := by
  unfold round
  rw [abs_le]
  split
  · have h1 := Int.floor_le (x + 1 / 2)
    have h2 := Int.lt_floor_add_one (x + 1 / 2)
    constructor <;> linarith
  · have h1 := Int.le_ceil (x - 1 / 2)
    have h2 := Int.ceil_lt_add_one (x - 1 / 2)
    constructor <;> linarith

theorem abs_roundHalfEven_sub_le (y : ℚ) : |(roundHalfEven y : ℚ) - y| ≤ 1 / 2 := by
  have h1 := Int.floor_le y
  have h2 := Int.lt_floor_add_one y
  unfold roundHalfEven
  simp only []
  rw [abs_le]
  split_ifs with a b c
  · constructor <;> linarith
  · push_cast; constructor <;> linarith
  · constructor <;> linarith
  · push_cast; constructor <;> linarith

/-- Rounding to `float` moves a value by at most half the spacing around it. -/
theorem abs_f32_sub_le (x : ℚ) : |f32 x - x| ≤ pow2 (quantum x) / 2 := by
  have hp : 0 < pow2 (quantum x) := pow2_pos _
  unfold f32
  split_ifs with h0
  · rw [h0, sub_self, abs_zero]; exact le_of_lt (half_pos (pow2_pos _))
  · have e : (roundHalfEven (x / pow2 (quantum x)) : ℚ) * pow2 (quantum x) - x =
        ((roundHalfEven (x / pow2 (quantum x)) : ℚ) - x / pow2 (quantum x)) *
          pow2 (quantum x) := by
      field_simp
    rw [e, abs_mul, abs_of_pos hp]
    have := abs_roundHalfEven_sub_le (x / pow2 (quantum x))
    nlinarith

/-- C10, the claim at two characters the code can reach.  After gaining 110,
levelling up and gaining 1144.5, `CurrentExp - MaxExp` is 135593983/131072,
about 1034.4999924; `BufferExp` carries 1035, which is not that excess rounded
half away from zero (1034) and is more than 1/2 away from it.  After one grant
of 99999997952 the excess over `MaxExp = 100` is 99999997852, and `BufferExp`
carries 99999997952, which is 100 away from it. -/
theorem overflow_carry_more_than_half_off :
    afterSecondGrant32.CurrentExp - afterSecondGrant32.MaxExp = 135593983 / 131072 ∧
      (F32.BufferExp afterSecondGrant32).CurrentExp = 1035 ∧
      roundHalfAwayFromZero (afterSecondGrant32.CurrentExp - afterSecondGrant32.MaxExp) =
        1034 ∧
      1 / 2 < |(F32.BufferExp afterSecondGrant32).CurrentExp -
        (afterSecondGrant32.CurrentExp - afterSecondGrant32.MaxExp)| ∧
      afterHugeGrant32.CurrentExp - afterHugeGrant32.MaxExp = 99999997852 ∧
      (F32.BufferExp afterHugeGrant32).CurrentExp = 99999997952 ∧
      |(F32.BufferExp afterHugeGrant32).CurrentExp -
        (afterHugeGrant32.CurrentExp - afterHugeGrant32.MaxExp)| = 100 := by
  decide!

/-- C10 as amended. Overflow carry on level-up in single precision: for every
character whose excess `CurrentExp - MaxExp` is below the overflow threshold,
`BufferExp` sets `CurrentExp` to `round` of the `float` difference
`f32 (CurrentExp - MaxExp)`, which is that difference rounded half away from
zero; when `CurrentExp` equals `MaxExp` the result is 0, as the formula gives;
the carried value is an integer within 1/2 of the `float` difference, so
within 1/2 plus half a `float` spacing of the true excess, and within 1/2 of
the true excess whenever the subtraction is exact. -/
theorem overflow_carry_f32 (c : ATAM_CWCharacter)
    (_hfin : |c.CurrentExp - c.MaxExp| < overflowThreshold) :
    (F32.BufferExp c).CurrentExp = round (f32 (c.CurrentExp - c.MaxExp)) ∧
      (F32.BufferExp c).CurrentExp =
        roundHalfAwayFromZero (f32 (c.CurrentExp - c.MaxExp)) ∧
      (c.CurrentExp ≠ c.MaxExp ∨ (F32.BufferExp c).CurrentExp = 0) ∧
      (∃ n : ℤ, (F32.BufferExp c).CurrentExp = (n : ℚ)) ∧
      |(F32.BufferExp c).CurrentExp - f32 (c.CurrentExp - c.MaxExp)| ≤ 1 / 2 ∧
      |(F32.BufferExp c).CurrentExp - (c.CurrentExp - c.MaxExp)| ≤
        1 / 2 + pow2 (quantum (c.CurrentExp - c.MaxExp)) / 2 ∧
      (f32 (c.CurrentExp - c.MaxExp) ≠ c.CurrentExp - c.MaxExp ∨
        |(F32.BufferExp c).CurrentExp - (c.CurrentExp - c.MaxExp)| ≤ 1 / 2) := by
  have e := BufferExp32_CurrentExp c
  have hb := abs_round_sub_le (f32 (c.CurrentExp - c.MaxExp))
  refine ⟨e, ?_, ?_, ?_, ?_, ?_, ?_⟩
  · rw [e, round_eq_roundHalfAwayFromZero]
  · by_cases h : c.CurrentExp = c.MaxExp
    · right
      rw [e, h, sub_self, f32_zero]
      have := round_intCast 0
      simpa using this
    · left; exact h
  · rw [e]; exact round_isInt _
  · rw [e]; exact hb
  · rw [e]
    have h2 := abs_f32_sub_le (c.CurrentExp - c.MaxExp)
    have h3 := abs_sub_le (round (f32 (c.CurrentExp - c.MaxExp)))
      (f32 (c.CurrentExp - c.MaxExp)) (c.CurrentExp - c.MaxExp)
    linarith
  · by_cases h : f32 (c.CurrentExp - c.MaxExp) = c.CurrentExp - c.MaxExp
    · right
      rw [e]
      rw [h] at hb ⊢
      exact hb
    · left; exact h

/-- Witness for C10: the character that has gained 110, levelled up and gained
1144.5. -/
theorem overflow_carry_f32_witness :
    (F32.BufferExp afterSecondGrant32).CurrentExp =
        round (f32 (afterSecondGrant32.CurrentExp - afterSecondGrant32.MaxExp)) ∧
      (F32.BufferExp afterSecondGrant32).CurrentExp =
        roundHalfAwayFromZero
          (f32 (afterSecondGrant32.CurrentExp - afterSecondGrant32.MaxExp)) ∧
      (afterSecondGrant32.CurrentExp ≠ afterSecondGrant32.MaxExp ∨
        (F32.BufferExp afterSecondGrant32).CurrentExp = 0) ∧
      (∃ n : ℤ, (F32.BufferExp afterSecondGrant32).CurrentExp = (n : ℚ)) ∧
      |(F32.BufferExp afterSecondGrant32).CurrentExp -
        f32 (afterSecondGrant32.CurrentExp - afterSecondGrant32.MaxExp)| ≤ 1 / 2 ∧
      |(F32.BufferExp afterSecondGrant32).CurrentExp -
        (afterSecondGrant32.CurrentExp - afterSecondGrant32.MaxExp)| ≤
        1 / 2 + pow2 (quantum (afterSecondGrant32.CurrentExp - afterSecondGrant32.MaxExp)) / 2 ∧
      (f32 (afterSecondGrant32.CurrentExp - afterSecondGrant32.MaxExp) ≠
          afterSecondGrant32.CurrentExp - afterSecondGrant32.MaxExp ∨
        |(F32.BufferExp afterSecondGrant32).CurrentExp -
          (afterSecondGrant32.CurrentExp - afterSecondGrant32.MaxExp)| ≤ 1 / 2) :=
  overflow_carry_f32 afterSecondGrant32 (by decide!)

/-! ## C11 -/

/-- Away from a zero divisor the float division is the exact quotient. -/
theorem fdiv_eq_some (a b : ℚ) (h : b ≠ 0) : fdiv a b = some (a / b) := by
  unfold fdiv
  rw [if_neg h]

theorem UpdateExp_consistent (d : ℚ) (c : ATAM_CWCharacter) (h : c.CurrentLevel < c.LevelCap) :
    CachedFieldsConsistent (UpdateExp d c) := by
  unfold UpdateExp
  rw [if_pos h]
  exact ⟨rfl, rfl⟩

theorem BufferExp_ExpLeft (c : ATAM_CWCharacter) :
    (BufferExp c).ExpLeft = c.MaxExp * c.ExpGrowth - (BufferExp c).CurrentExp := by
  unfold BufferExp
  split <;> rfl

theorem LevelUp_consistent (c : ATAM_CWCharacter) : CachedFieldsConsistent (LevelUp c) := by
  constructor
  · show (BufferExp _).ExpLeft = (BufferExp _).MaxExp * (BufferExp _).ExpGrowth -
      (BufferExp _).CurrentExp
    rw [BufferExp_ExpLeft, BufferExp_MaxExp, BufferExp_ExpGrowth]
  · rfl

theorem LoadData_consistent (c : ATAM_CWCharacter) (h : c.hasSaved = true) :
    CachedFieldsConsistent (LoadData c) := by
  unfold LoadData
  rw [if_pos h]
  exact ⟨rfl, rfl⟩

end TAM_CW
